import Mathlib

/-!
Shallow embedding of the `pestras/xdb` library (src/index.ts): the XDB
connection lifecycle manager, its process-wide connection registry, and the
KeyCache-backed `Store` / `ListStore` handles over an IndexedDB-style
storage engine.

Keys (`IDBValidKey`) are modelled as `Nat`; documents of a `ListStore` are
pairs `(key, payload)` where the first component plays the role of
`doc[keyPath]`.  Storage requests, transaction modes, and the
success / error / complete callback outcomes of each operation are made
explicit so that theorems can speak about which requests an operation
issues and what each callback does to the in-memory key cache.
-/

namespace Xdb

/-- Transaction mode (`IDBTransactionMode`). -/
inductive TxMode where
  | readonly
  | readwrite
deriving DecidableEq, Repr

/-- A transaction as returned by `XDB.transaction`: the store names it is
scoped to and its access mode (`this._db.transaction(storeNames, mode)`). -/
structure Tx where
  storeNames : List String
  mode : TxMode
deriving DecidableEq, Repr

/-- A single storage request enqueued on the object store of a transaction. -/
inductive Req where
  | getReq (key : Nat)
  | putReq (key : Nat)
  | addReq (key : Nat)
  | delReq (key : Nat)
  | clearReq
deriving DecidableEq, Repr

/-- The state of one `XDB` connection object: its `name`, the recorded
version `_v`, the current value of the `_openSub` behavior subject
(`none` models the initial `null`), and whether `_db` is set. -/
structure XDBState where
  name : String
  v : Nat
  openVal : Option Bool
  hasDb : Bool
deriving DecidableEq, Repr

namespace XDBState

/-- Getter `isOpen`, returning the current `_openSub` value, used in boolean
position: truthy exactly when the current value of the subject is `true`. -/
def isOpen (db : XDBState) : Bool :=
  db.openVal = some true

/-- Method `XDB.transaction(storeNames, mode)`: returns a new transaction when the
connection is open, otherwise throws `` `${this.name} db is closed` ``. -/
def transaction (db : XDBState) (storeNames : List String) (mode : TxMode) :
    Except String Tx :=
  if db.isOpen then .ok ⟨storeNames, mode⟩
  else .error (db.name ++ " db is closed")

/-- Method `XDB.open()`: `if (this.isOpen) return;` else issue
`indexedDB.open(this.name, this.version)`.  Returns the connection state as
it stands when `open` returns (the async callbacks have not yet run) and
whether an open request was issued. -/
def openConn (db : XDBState) : XDBState × Bool :=
  if db.isOpen then (db, false) else (db, true)

/-- Method `XDB.close()`: closes the handle, clears `_db`, and runs
`_openSub.next(false)`. -/
def close (db : XDBState) : XDBState :=
  { db with hasDb := false, openVal := some false }

/-- Method `XDB.updateVersion(val)`: no-op when `val` equals `_v`; when open,
closes, sets `_v = val` and reopens; when closed the body is `return;`.
Second component records whether a reopen request was issued. -/
def updateVersion (db : XDBState) (val : Nat) : XDBState × Bool :=
  if db.v = val then (db, false)
  else if db.isOpen then
    let closed := db.close
    let bumped := { closed with v := val }
    bumped.openConn
  else (db, false)

end XDBState

/-- One registered connection as the registry sees it: an object identity
(`id`, standing for the JS object reference, hence its status stream and
storage handle) and its recorded version `_v`. -/
structure ConnInfo where
  id : Nat
  v : Nat
deriving DecidableEq, Repr

/-- Registry `XDB.Connections`: the process-wide `Map<string, XDB>`. -/
structure Registry where
  conns : List (String × ConnInfo)
deriving DecidableEq, Repr

/-- Association lookup over the registry entries. -/
def findConn : List (String × ConnInfo) → String → Option ConnInfo
  | [], _ => none
  | p :: l, n => if p.1 = n then some p.2 else findConn l n

/-- In-place mutation `db._v = v` of the registered connection object. -/
def setConnVersion : List (String × ConnInfo) → String → Nat → List (String × ConnInfo)
  | [], _, _ => []
  | p :: l, n, v =>
    (if p.1 = n then (p.1, { p.2 with v := v }) else p) :: setConnVersion l n v

namespace Registry

/-- Lookup `Connections.get(name)` / `Connections.has(name)`. -/
def find (r : Registry) (name : String) : Option ConnInfo :=
  findConn r.conns name

/-- Version adoption on the registered connection object. -/
def setVersion (r : Registry) (name : String) (v : Nat) : Registry :=
  ⟨setConnVersion r.conns name v⟩

/-- The registered names. -/
def names (r : Registry) : List String :=
  r.conns.map Prod.fst

end Registry

/-- The `XDB` constructor body (the supported-environment path): if a
connection with this `name` is registered, adopt the newly requested
version when it differs (`if (this._v !== db.version) db._v = this._v`) and
return the existing object; otherwise register this fresh object.  Returns
the registry afterwards and the identity of the object the construction
evaluates to. -/
def xdbConstruct (r : Registry) (freshId : Nat) (name : String) (v : Nat) :
    Registry × Nat :=
  match r.find name with
  | some c => (if v ≠ c.v then r.setVersion name v else r, c.id)
  | none => (⟨(name, ⟨freshId, v⟩) :: r.conns⟩, freshId)

/-!
## Store / ListStore

`Sys` is the joint state of one store handle and its bound object store:
`dbKeys` is the key set of the on-disk object store, `keys` the `_keys` cache of the handle, `readyVal` the current value of `_readySub`.
Each operation is translated to a function describing the storage requests
it enqueues, the transaction mode it asks for, and — separately — the state
produced by its success/complete handler and by its error handler (an
errored IndexedDB transaction is rolled back, so `dbKeys` is unchanged on
the error path; the error handlers in the source touch `_keys` nowhere).
-/

/-- Joint state of a store handle and its bound object store. -/
structure Sys where
  dbKeys : Finset Nat
  keys : Finset Nat
  readyVal : Option Bool
deriving DecidableEq

/-- Effect of a committed request on the key set of the object store: `put` and
`add` both make the key present, `delete` removes it, `clear` empties the
store, `get` reads only. -/
def applyReq (db : Finset Nat) : Req → Finset Nat
  | .getReq _ => db
  | .putReq k => insert k db
  | .addReq k => insert k db
  | .delReq k => db.erase k
  | .clearReq => ∅

/-- Outcome of a single-request store operation. -/
structure OpResult where
  txMode : Option TxMode
  reqs : List Req
  onSuccess : Sys
  onError : Sys
  emits : Bool
deriving DecidableEq

/-- Outcome of a batch (`updateMany` / `deleteMany`) operation, which keys
its cache update off the transaction `complete` event.  `afterIssue` is the
state as it stands once all requests are enqueued but before the
transaction settles: the enqueueing loops in the source never touch
`_keys`. -/
structure BatchResult where
  txMode : Option TxMode
  reqs : List Req
  afterIssue : Sys
  onComplete : Sys
  onError : Sys
deriving DecidableEq

namespace Store

/-- Method `Store.hasKey(key)`: membership in the `_keys` cache. -/
def hasKey (s : Sys) (k : Nat) : Bool :=
  k ∈ s.keys

/-- Initial key scan run by the constructor: on the `getAllKeys` success
callback, `this._keys = new Set(req.result); this._readySub.next(true)`. -/
def loadKeys (s : Sys) : Sys :=
  { s with keys := s.dbKeys, readyVal := some true }

/-- Method `Store.get(key)`: `if (!this._keys.has(key)) return of(null);` —
otherwise a single `get` on a `readonly` transaction, emitting
`req.result` (the stored value, or the not-found result `none` when the
key is absent from storage).  `lookup` gives the stored contents;
the pair returned is (transaction mode used, requests issued, value
emitted). -/
def get (s : Sys) (lookup : Nat → Option Nat) (k : Nat) :
    Option TxMode × List Req × Option Nat :=
  if k ∉ s.keys then (none, [], none)
  else (some .readonly, [.getReq k], lookup k)

/-- Method `Store.update(key, doc, upsert)`: short-circuits to `of()` (no
request, completes without emitting) when `upsert` is false and the key is
not cached; otherwise issues `put` (cached key) or `add` (uncached,
upsert) on a `readwrite` transaction; the success handler runs
`this._keys.add(key)`. -/
def update (s : Sys) (k : Nat) (upsert : Bool) : OpResult :=
  if ¬upsert ∧ k ∉ s.keys then
    { txMode := none, reqs := [], onSuccess := s, onError := s, emits := false }
  else
    let r : Req := if k ∈ s.keys then .putReq k else .addReq k
    { txMode := some .readwrite
      reqs := [r]
      onSuccess := { s with dbKeys := applyReq s.dbKeys r, keys := insert k s.keys }
      onError := s
      emits := true }

/-- Method `Store.delete(key)`: short-circuits to `of()` when the key is not
cached; otherwise issues `delete` on a `readwrite` transaction; the
success handler runs `this._keys.delete(key)`. -/
def delete (s : Sys) (k : Nat) : OpResult :=
  if k ∉ s.keys then
    { txMode := none, reqs := [], onSuccess := s, onError := s, emits := false }
  else
    { txMode := some .readwrite
      reqs := [.delReq k]
      onSuccess := { s with dbKeys := s.dbKeys.erase k, keys := s.keys.erase k }
      onError := s
      emits := true }

/-- Method `Store.clear()`: short-circuits to `of()` when the cache is empty;
otherwise issues `clear`; the success handler runs `this._keys.clear()`. -/
def clear (s : Sys) : OpResult :=
  if s.keys.card = 0 then
    { txMode := none, reqs := [], onSuccess := s, onError := s, emits := false }
  else
    { txMode := some .readwrite
      reqs := [.clearReq]
      onSuccess := { s with dbKeys := ∅, keys := ∅ }
      onError := s
      emits := true }

end Store

namespace ListStore

/-- A `ListStore` document: `(doc[keyPath], payload)`. -/
abbrev Doc := Nat × Nat

/-- The request loop of `updateMany`: for each doc, `put` when
`hasKey(doc[keyPath])`, else `add` when `upsert`, else nothing.  The
membership tests run against the cache as it stood at call time. -/
def updateManyReqs (cache : Finset Nat) (docs : List Doc) (upsert : Bool) :
    List Req :=
  docs.filterMap (fun d =>
    if d.1 ∈ cache then some (.putReq d.1)
    else if upsert then some (.addReq d.1)
    else none)

/-- Method `ListStore.updateMany(docs, upsert)`: enqueues the put/add requests on
one `readwrite` transaction; the `complete` handler adds every
`doc[keyPath]` to the cache when `upsert`; the `error` handler only fails
the observable. -/
def updateMany (s : Sys) (docs : List Doc) (upsert : Bool) : BatchResult :=
  let rs := updateManyReqs s.keys docs upsert
  { txMode := some .readwrite
    reqs := rs
    afterIssue := s
    onComplete :=
      { s with
        dbKeys := rs.foldl applyReq s.dbKeys
        keys := if upsert then docs.foldl (fun a d => insert d.1 a) s.keys else s.keys }
    onError := s }

/-- Method `ListStore.deleteMany(keys)`: `keys = keys.filter(key =>
!this.hasKey(key));` then one `delete` per remaining key on one
`readwrite` transaction; the `complete` handler runs
`this._keys.delete(key)` for those same keys. -/
def deleteMany (s : Sys) (ks : List Nat) : BatchResult :=
  let kept := ks.filter (fun k => ¬k ∈ s.keys)
  { txMode := some .readwrite
    reqs := kept.map .delReq
    afterIssue := s
    onComplete :=
      { s with
        dbKeys := kept.foldl Finset.erase s.dbKeys
        keys := kept.foldl Finset.erase s.keys }
    onError := s }

end ListStore

/-!
## The key-cache invariant

`CacheInv` is the consistency property of one handle: once `_readySub`
holds `true`, the in-memory `_keys` cache coincides with the key set of
the bound object store.  `Step` collects every state change a handle can
undergo after construction: the initial key scan, and the
success / complete / error callback of each mutation issued through the
handle. -/

/-- Once ready, the cache equals the key set of the bound object store. -/
def CacheInv (s : Sys) : Prop :=
  s.readyVal = some true → s.keys = s.dbKeys

instance (s : Sys) : Decidable (CacheInv s) := by
  unfold CacheInv; infer_instance

/-- All state changes of one store handle: the initial key scan and each
settled mutation issued through the handle. -/
inductive Step : Sys → Sys → Prop where
  | load (s : Sys) : Step s (Store.loadKeys s)
  | updateOk (s : Sys) (k : Nat) (up : Bool) : Step s (Store.update s k up).onSuccess
  | updateErr (s : Sys) (k : Nat) (up : Bool) : Step s (Store.update s k up).onError
  | deleteOk (s : Sys) (k : Nat) : Step s (Store.delete s k).onSuccess
  | deleteErr (s : Sys) (k : Nat) : Step s (Store.delete s k).onError
  | clearOk (s : Sys) : Step s (Store.clear s).onSuccess
  | clearErr (s : Sys) : Step s (Store.clear s).onError
  | updateManyOk (s : Sys) (docs : List ListStore.Doc) (up : Bool) :
      Step s (ListStore.updateMany s docs up).onComplete
  | updateManyErr (s : Sys) (docs : List ListStore.Doc) (up : Bool) :
      Step s (ListStore.updateMany s docs up).onError
  | deleteManyOk (s : Sys) (ks : List Nat) : Step s (ListStore.deleteMany s ks).onComplete
  | deleteManyErr (s : Sys) (ks : List Nat) : Step s (ListStore.deleteMany s ks).onError

lemma foldl_updateManyReqs_true (cache : Finset Nat) :
    ∀ (docs : List ListStore.Doc) (db : Finset Nat),
      (ListStore.updateManyReqs cache docs true).foldl applyReq db
        = docs.foldl (fun a d => insert d.1 a) db := by
  intro docs
  induction docs with
  | nil => intro db; rfl
  | cons d ds ih =>
    intro db
    by_cases hd : d.1 ∈ cache <;>
      simp [ListStore.updateManyReqs, hd, applyReq, List.filterMap_cons,
        ih (insert d.1 db)] <;>
      exact (ih (insert d.1 db)).symm ▸ rfl

lemma foldl_updateManyReqs_false (cache : Finset Nat) :
    ∀ (docs : List ListStore.Doc) (db : Finset Nat), cache ⊆ db →
      (ListStore.updateManyReqs cache docs false).foldl applyReq db = db := by
  intro docs
  induction docs with
  | nil => intro db _; rfl
  | cons d ds ih =>
    intro db hsub
    by_cases hd : d.1 ∈ cache
    · have hins : insert d.1 db = db := Finset.insert_eq_self.2 (hsub hd)
      simp only [ListStore.updateManyReqs, List.filterMap_cons, hd, if_pos,
        List.foldl_cons, applyReq, hins]
      exact ih db hsub
    · simp only [ListStore.updateManyReqs, List.filterMap_cons, hd, if_neg,
        Bool.false_eq_true, if_false]
      exact ih db hsub

lemma cacheInv_load (s : Sys) : CacheInv (Store.loadKeys s) :=
  fun _ => rfl

lemma cacheInv_update (s : Sys) (k : Nat) (up : Bool) (h : CacheInv s) :
    CacheInv (Store.update s k up).onSuccess := by
  intro hr
  unfold Store.update at hr ⊢
  by_cases hc : ¬up = true ∧ k ∉ s.keys
  · rw [if_pos hc] at hr ⊢; exact h hr
  · rw [if_neg hc] at hr ⊢
    have hk : s.keys = s.dbKeys := h hr
    show insert k s.keys
        = applyReq s.dbKeys (if k ∈ s.keys then Req.putReq k else Req.addReq k)
    by_cases hm : k ∈ s.keys
    · rw [if_pos hm, hk]; rfl
    · rw [if_neg hm, hk]; rfl

lemma cacheInv_delete (s : Sys) (k : Nat) (h : CacheInv s) :
    CacheInv (Store.delete s k).onSuccess := by
  intro hr
  unfold Store.delete at hr ⊢
  by_cases hc : k ∉ s.keys
  · rw [if_pos hc] at hr ⊢; exact h hr
  · rw [if_neg hc] at hr ⊢; rw [h hr]

lemma cacheInv_clear (s : Sys) (h : CacheInv s) :
    CacheInv (Store.clear s).onSuccess := by
  intro hr
  unfold Store.clear at hr ⊢
  by_cases hc : s.keys.card = 0
  · rw [if_pos hc] at hr ⊢; exact h hr
  · rw [if_neg hc] at hr ⊢

lemma cacheInv_updateMany (s : Sys) (docs : List ListStore.Doc) (up : Bool)
    (h : CacheInv s) : CacheInv (ListStore.updateMany s docs up).onComplete := by
  intro hr
  unfold ListStore.updateMany at hr ⊢
  have hk : s.keys = s.dbKeys := h hr
  cases up with
  | true =>
    show (if true = true then docs.foldl (fun a d => insert d.1 a) s.keys else s.keys)
        = (ListStore.updateManyReqs s.keys docs true).foldl applyReq s.dbKeys
    rw [if_pos rfl, foldl_updateManyReqs_true s.keys docs s.dbKeys, hk]
  | false =>
    show (if false = true then docs.foldl (fun a d => insert d.1 a) s.keys else s.keys)
        = (ListStore.updateManyReqs s.keys docs false).foldl applyReq s.dbKeys
    rw [if_neg (by simp), foldl_updateManyReqs_false s.keys docs s.dbKeys (by rw [hk])]
    exact hk

lemma cacheInv_deleteMany (s : Sys) (ks : List Nat) (h : CacheInv s) :
    CacheInv (ListStore.deleteMany s ks).onComplete := by
  intro hr
  unfold ListStore.deleteMany at hr ⊢
  rw [h hr]

lemma cacheInv_step {s t : Sys} (h : CacheInv s) (hs : Step s t) : CacheInv t := by
  cases hs with
  | load => exact cacheInv_load s
  | updateOk k up => exact cacheInv_update s k up h
  | updateErr k up =>
    unfold Store.update
    intro hr
    by_cases hc : ¬up = true ∧ k ∉ s.keys
    · rw [if_pos hc] at hr ⊢; exact h hr
    · rw [if_neg hc] at hr ⊢; exact h hr
  | deleteOk k => exact cacheInv_delete s k h
  | deleteErr k =>
    unfold Store.delete
    intro hr
    by_cases hc : k ∉ s.keys
    · rw [if_pos hc] at hr ⊢; exact h hr
    · rw [if_neg hc] at hr ⊢; exact h hr
  | clearOk => exact cacheInv_clear s h
  | clearErr =>
    unfold Store.clear
    intro hr
    by_cases hc : s.keys.card = 0
    · rw [if_pos hc] at hr ⊢; exact h hr
    · rw [if_neg hc] at hr ⊢; exact h hr
  | updateManyOk docs up => exact cacheInv_updateMany s docs up h
  | updateManyErr docs up => exact h
  | deleteManyOk ks => exact cacheInv_deleteMany s ks h
  | deleteManyErr ks => exact h

lemma delete_removes_key (s : Sys) (k : Nat) :
    k ∉ (Store.delete s k).onSuccess.keys := by
  unfold Store.delete
  by_cases hc : k ∉ s.keys
  · rw [if_pos hc]; exact hc
  · rw [if_neg hc]; exact Finset.not_mem_erase k s.keys

lemma update_adds_key (s : Sys) (k : Nat) (up : Bool)
    (h : up = true ∨ k ∈ s.keys) :
    k ∈ (Store.update s k up).onSuccess.keys := by
  unfold Store.update
  have hc : ¬(¬up = true ∧ k ∉ s.keys) := by
    rcases h with h | h
    · exact fun hc => hc.1 h
    · exact fun hc => hc.2 h
  rw [if_neg hc]
  exact Finset.mem_insert_self k s.keys

/-! ## Registry lemmas -/

lemma findConn_setConnVersion (n : String) (v : Nat) :
    ∀ l : List (String × ConnInfo),
      findConn (setConnVersion l n v) n
        = (findConn l n).map (fun c => { c with v := v }) := by
  intro l
  induction l with
  | nil => rfl
  | cons p l ih =>
    by_cases hp : p.1 = n
    · simp [setConnVersion, findConn, hp]
    · simp [setConnVersion, findConn, hp, ih]

lemma setConnVersion_names (n : String) (v : Nat) :
    ∀ l : List (String × ConnInfo),
      (setConnVersion l n v).map Prod.fst = l.map Prod.fst := by
  intro l
  induction l with
  | nil => rfl
  | cons p l ih => by_cases hp : p.1 = n <;> simp [setConnVersion, hp, ih]

lemma findConn_none_not_mem (n : String) :
    ∀ l : List (String × ConnInfo),
      findConn l n = none → n ∉ l.map Prod.fst := by
  intro l
  induction l with
  | nil => intro _; simp
  | cons p l ih =>
    intro hf hmem
    by_cases hp : p.1 = n
    · rw [findConn, if_pos hp] at hf; exact Option.noConfusion hf
    · rw [findConn, if_neg hp] at hf
      rcases List.mem_cons.1 hmem with he | hm
      · exact hp he.symm
      · exact ih hf hm

lemma xdbConstruct_found (r : Registry) (f : Nat) (n : String) (v : Nat)
    (c : ConnInfo) (hf : r.find n = some c) :
    xdbConstruct r f n v = (if v ≠ c.v then r.setVersion n v else r, c.id) := by
  unfold xdbConstruct
  rw [hf]

lemma xdbConstruct_missing (r : Registry) (f : Nat) (n : String) (v : Nat)
    (hf : r.find n = none) :
    xdbConstruct r f n v = (⟨(n, ⟨f, v⟩) :: r.conns⟩, f) := by
  unfold xdbConstruct
  rw [hf]

/-! ## Batch-update lemmas -/

lemma updateManyReqs_true_eq_map (cache : Finset Nat) (docs : List ListStore.Doc) :
    ListStore.updateManyReqs cache docs true
      = docs.map (fun d => if d.1 ∈ cache then Req.putReq d.1 else Req.addReq d.1) := by
  induction docs with
  | nil => rfl
  | cons d ds ih =>
    by_cases hd : d.1 ∈ cache <;>
      simp only [ListStore.updateManyReqs, List.filterMap_cons, List.map_cons,
        hd, if_pos, if_neg, if_true, if_false, ite_true, ite_false] <;>
      simpa [ListStore.updateManyReqs, hd] using ih

lemma foldl_insert_mono (docs : List ListStore.Doc) :
    ∀ (a : Finset Nat) (x : Nat), x ∈ a →
      x ∈ docs.foldl (fun acc d => insert d.1 acc) a := by
  induction docs with
  | nil => intro a x h; exact h
  | cons d ds ih =>
    intro a x h
    rw [List.foldl_cons]
    exact ih (insert d.1 a) x (Finset.mem_insert_of_mem h)

lemma mem_foldl_insert_of_mem (docs : List ListStore.Doc) :
    ∀ (a : Finset Nat) (d : ListStore.Doc), d ∈ docs →
      d.1 ∈ docs.foldl (fun acc x => insert x.1 acc) a := by
  induction docs with
  | nil => intro a d h; cases h
  | cons e ds ih =>
    intro a d h
    rw [List.foldl_cons]
    rcases List.mem_cons.1 h with he | hm
    · subst he
      exact foldl_insert_mono ds (insert d.1 a) d.1 (Finset.mem_insert_self d.1 a)
    · exact ih (insert e.1 a) d hm

/-! ## Claim theorems -/

/-- C1: once a Store/ListStore handle is ready, its in-memory key set
equals the exact key set of the bound object store across every settled
operation through the handle (the initial scan and all subsequent
success/complete/error callbacks); in particular a committed delete leaves
the key out of the set and a committed add (upsert, or put on a cached
key) leaves it in. -/
theorem keyCache_exact_after_ready (s t : Sys) (h : CacheInv s)
    (hs : Relation.ReflTransGen Step s t) :
    CacheInv t ∧ (∀ k, k ∉ (Store.delete t k).onSuccess.keys) ∧
    (∀ k up, up = true ∨ k ∈ t.keys → k ∈ (Store.update t k up).onSuccess.keys) := by
  refine ⟨?_, fun k => delete_removes_key t k, fun k up hk => update_adds_key t k up hk⟩
  induction hs with
  | refl => exact h
  | tail _hst hstep ih => exact cacheInv_step ih hstep

theorem keyCache_exact_after_ready_witness :
    CacheInv (Store.loadKeys ⟨{1, 2}, ∅, none⟩) :=
  (keyCache_exact_after_ready ⟨{1, 2}, ∅, none⟩ (Store.loadKeys ⟨{1, 2}, ∅, none⟩)
    (by decide) (Relation.ReflTransGen.single (Step.load _))).1

/-- C2: the connection registry keeps at most one connection per name:
constructing with a registered name returns the existing object (same
identity, hence same status stream and storage handle) and overwrites its
recorded version with the newly requested one; name uniqueness in the
registry is preserved by every construction. -/
theorem xdb_registry_dedup (r : Registry) (f : Nat) (n : String) (v : Nat)
    (hnd : r.names.Nodup) :
    ((xdbConstruct r f n v).1).names.Nodup ∧
    (∀ c, r.find n = some c →
      (xdbConstruct r f n v).2 = c.id ∧
      ((xdbConstruct r f n v).1).find n = some ⟨c.id, v⟩) := by
  constructor
  · cases hf : r.find n with
    | none =>
      rw [xdbConstruct_missing r f n v hf]
      refine List.nodup_cons.2 ⟨findConn_none_not_mem n r.conns hf, hnd⟩
    | some c =>
      rw [xdbConstruct_found r f n v c hf]
      by_cases hv : v ≠ c.v
      · rw [if_pos hv]
        show ((r.setVersion n v).conns.map Prod.fst).Nodup
        rw [Registry.setVersion, setConnVersion_names]
        exact hnd
      · rw [if_neg hv]; exact hnd
  · intro c hf
    rw [xdbConstruct_found r f n v c hf]
    refine ⟨rfl, ?_⟩
    by_cases hv : v ≠ c.v
    · rw [if_pos hv]
      show (r.setVersion n v).find n = some ⟨c.id, v⟩
      rw [Registry.find, Registry.setVersion, findConn_setConnVersion, ← Registry.find, hf]
      rfl
    · rw [if_neg hv]
      have hcv : c.v = v := (not_not.1 hv).symm
      rw [hf, ← hcv]

theorem xdb_registry_dedup_witness :
    (xdbConstruct ⟨[("a", ⟨7, 1⟩)]⟩ 9 "a" 3).2 = 7 ∧
    (xdbConstruct ⟨[("a", ⟨7, 1⟩)]⟩ 9 "a" 3).1.find "a" = some ⟨7, 3⟩ :=
  (xdb_registry_dedup ⟨[("a", ⟨7, 1⟩)]⟩ 9 "a" 3 (by decide)).2 ⟨7, 1⟩ (by decide)

/-- C3: code-bug evidence for `deleteMany`.  At a state where key 1 is in
both the cache and the store, `deleteMany([1])` issues no delete request
and leaves key 1 in both the cache and the store after the transaction
completes; conversely a key absent from the cache (key 2) does get a
delete issued.  The filter in the source keeps the keys that are NOT in
the cache — the opposite of the defensive filtering the claim (and the
doc comment, which promises the keys are deleted) describes. -/
theorem deleteMany_skips_cached_keys :
    (ListStore.deleteMany ⟨{1}, {1}, some true⟩ [1]).reqs = [] ∧
    (1 : Nat) ∈ (ListStore.deleteMany ⟨{1}, {1}, some true⟩ [1]).onComplete.keys ∧
    (1 : Nat) ∈ (ListStore.deleteMany ⟨{1}, {1}, some true⟩ [1]).onComplete.dbKeys ∧
    (ListStore.deleteMany ⟨{2}, ∅, some true⟩ [2]).reqs = [Req.delReq 2] := by
  decide

/-- C4 counterexample: on a closed connection with recorded version 1,
`updateVersion(2)` leaves the recorded version at 1, not 2. -/
theorem updateVersion_closed_counterexample :
    (XDBState.updateVersion ⟨"d", 1, some false, false⟩ 2).1.v ≠ 2 := by
  decide

/-- C4 (amended): `updateVersion(v)` is a no-op when `v` equals the
recorded version; when open it closes the connection, sets the recorded
version to `v`, and issues a reopen; when closed it does nothing at all —
in particular the recorded version stays unchanged. -/
theorem updateVersion_spec (db : XDBState) (val : Nat) :
    (db.v = val → db.updateVersion val = (db, false)) ∧
    (db.v ≠ val → db.isOpen = true →
      db.updateVersion val
        = ({ db with hasDb := false, openVal := some false, v := val }, true)) ∧
    (db.v ≠ val → db.isOpen = false → db.updateVersion val = (db, false)) := by
  refine ⟨?_, ?_, ?_⟩
  · intro h
    unfold XDBState.updateVersion
    rw [if_pos h]
  · intro h ho
    unfold XDBState.updateVersion
    rw [if_neg h, if_pos ho]
    simp [XDBState.close, XDBState.openConn, XDBState.isOpen]
  · intro h ho
    unfold XDBState.updateVersion
    rw [if_neg h, if_neg (by simp [ho])]

theorem updateVersion_spec_witness :
    XDBState.updateVersion ⟨"d", 1, some true, true⟩ 2
      = (⟨"d", 2, some false, false⟩, true) :=
  (updateVersion_spec ⟨"d", 1, some true, true⟩ 2).2.1 (by decide) (by decide)

/-- C5 counterexample: with the cache not yet ready (ready value still the
initial `null`) and empty, but key 0 present in storage with value 5,
`get(0)` short-circuits to a null emission with no storage request — while
the claim requires this "otherwise" case to issue a single get request. -/
theorem get_not_ready_counterexample :
    (Store.get ⟨{0}, ∅, none⟩ (fun k => if k = 0 then some 5 else none) 0).2.1
      ≠ [Req.getReq 0] := by
  decide

/-- C5 (amended): `get(key)` short-circuits to a null emission with no
transaction and no storage request whenever the key is absent from the
cache — ready or not; when the key is cached it issues a single get on a
read-only transaction and emits the stored value, or the not-found result
when the key is genuinely absent from storage. -/
theorem get_shortCircuit_spec (s : Sys) (lookup : Nat → Option Nat) (k : Nat) :
    (k ∉ s.keys → Store.get s lookup k = (none, [], none)) ∧
    (k ∈ s.keys →
      Store.get s lookup k = (some TxMode.readonly, [Req.getReq k], lookup k)) := by
  constructor
  · intro h
    unfold Store.get
    rw [if_pos h]
  · intro h
    unfold Store.get
    rw [if_neg (not_not_intro h)]

theorem get_shortCircuit_spec_witness :
    Store.get ⟨{1}, {1}, some true⟩ (fun _ => some 7) 1
      = (some TxMode.readonly, [Req.getReq 1], some 7) :=
  (get_shortCircuit_spec ⟨{1}, {1}, some true⟩ (fun _ => some 7) 1).2 (by decide)

/-- C6: `update(key, doc, upsert := false)` on a key absent from the cache
issues no transaction and no storage request, emits no value, and both the
cache and the object store are untouched on every outcome — in particular
the key stays absent. -/
theorem update_noUpsert_missing_noop (s : Sys) (k : Nat) (h : k ∉ s.keys) :
    Store.update s k false
      = { txMode := none, reqs := [], onSuccess := s, onError := s, emits := false } ∧
    k ∉ (Store.update s k false).onSuccess.keys := by
  have hc : (¬(false = true) ∧ k ∉ s.keys) := ⟨by simp, h⟩
  constructor
  · unfold Store.update
    rw [if_pos hc]
  · unfold Store.update
    rw [if_pos hc]
    exact h

theorem update_noUpsert_missing_noop_witness :
    Store.update ⟨{2}, {2}, some true⟩ 1 false
      = { txMode := none, reqs := [], onSuccess := ⟨{2}, {2}, some true⟩,
          onError := ⟨{2}, {2}, some true⟩, emits := false } :=
  (update_noUpsert_missing_noop ⟨{2}, {2}, some true⟩ 1 (by decide)).1

/-- C7: `transaction(storeNames, mode)` on a connection that is not open
always returns the explicit "db is closed" error, and on an open
connection returns a new transaction scoped to the given store names and
mode. -/
theorem transaction_requires_open (db : XDBState) (ns : List String) (m : TxMode) :
    (db.isOpen = false →
      db.transaction ns m = Except.error (db.name ++ " db is closed")) ∧
    (db.isOpen = true → db.transaction ns m = Except.ok ⟨ns, m⟩) := by
  constructor
  · intro h
    unfold XDBState.transaction
    rw [if_neg (by simp [h])]
  · intro h
    unfold XDBState.transaction
    rw [if_pos h]

theorem transaction_requires_open_witness :
    XDBState.transaction ⟨"mydb", 1, some false, false⟩ ["s"] TxMode.readonly
      = Except.error ("mydb" ++ " db is closed") :=
  (transaction_requires_open ⟨"mydb", 1, some false, false⟩ ["s"] TxMode.readonly).1
    (by decide)

/-- C8: `updateMany(docs, upsert := true)` issues, on one read-write
transaction, a put for each doc whose key is cached and an add for the
rest; the cache is untouched when the requests are enqueued and on the
error path, and exactly in the complete handler every doc key becomes
present in the cache. -/
theorem updateMany_upsert_batch (s : Sys) (docs : List ListStore.Doc) :
    (ListStore.updateMany s docs true).txMode = some TxMode.readwrite ∧
    (ListStore.updateMany s docs true).reqs
      = docs.map (fun d => if d.1 ∈ s.keys then Req.putReq d.1 else Req.addReq d.1) ∧
    (ListStore.updateMany s docs true).afterIssue = s ∧
    (∀ d ∈ docs, d.1 ∈ (ListStore.updateMany s docs true).onComplete.keys) ∧
    (ListStore.updateMany s docs true).onError = s := by
  refine ⟨rfl, updateManyReqs_true_eq_map s.keys docs, rfl, ?_, rfl⟩
  intro d hd
  show d.1 ∈ (if true = true then docs.foldl (fun a x => insert x.1 a) s.keys else s.keys)
  rw [if_pos rfl]
  exact mem_foldl_insert_of_mem docs s.keys d hd

theorem updateMany_upsert_batch_witness :
    (1 : Nat) ∈ (ListStore.updateMany ⟨∅, ∅, some true⟩ [(1, 10), (2, 20)] true).onComplete.keys :=
  (updateMany_upsert_batch ⟨∅, ∅, some true⟩ [(1, 10), (2, 20)]).2.2.2.1 (1, 10)
    (by simp)

/-- C10: on every mutation of a Store/ListStore handle, the error handler
leaves the in-memory key cache exactly as it was before the operation —
keys are added or removed only in the success/complete handlers. -/
theorem mutation_error_preserves_cache (s : Sys) (k : Nat) (up : Bool)
    (docs : List ListStore.Doc) (ks : List Nat) :
    (Store.update s k up).onError.keys = s.keys ∧
    (Store.delete s k).onError.keys = s.keys ∧
    (Store.clear s).onError.keys = s.keys ∧
    (ListStore.updateMany s docs up).onError.keys = s.keys ∧
    (ListStore.deleteMany s ks).onError.keys = s.keys := by
  refine ⟨?_, ?_, ?_, rfl, rfl⟩
  · unfold Store.update; split <;> rfl
  · unfold Store.delete; split <;> rfl
  · unfold Store.clear; split <;> rfl

/-- C9: calling `open()` on an already-open connection issues no storage
open request and leaves the connection state (handle, status value,
recorded version) unchanged. -/
theorem open_idempotent (db : XDBState) (h : db.isOpen = true) :
    db.openConn = (db, false) := by
  unfold XDBState.openConn
  rw [if_pos h]

theorem open_idempotent_witness :
    XDBState.openConn ⟨"d", 1, some true, true⟩ = (⟨"d", 1, some true, true⟩, false) :=
  open_idempotent ⟨"d", 1, some true, true⟩ (by decide)

end Xdb
